import Mathlib

/-!
Shallow embedding of the subsurface dive-planner core (planner.c) together
with theorems checking the natural-language specification against it.

Conventions of the embedding:
* C strings are `List Char`; a `char *` cursor into a NUL-terminated buffer
  is the suffix list starting at the cursor; the NUL terminator is the end
  of the list.  A nullable `char *` argument is `Option (List Char)`.
* C `int` values are `Int` (no overflow occurs in the ranges exercised).
  C integer division truncates toward zero, which is `Int.tdiv`.
* the linked list of `struct divedatapoint` is `List divedatapoint`.
* the fixed `cylinder[MAX_CYLINDERS]` array is a `List cylinder_t`; the
  theorems hold for every length, in particular for length MAX_CYLINDERS.
* out-parameters that a C function conditionally writes are threaded
  explicitly: the function takes the old value and returns the new one.
-/

namespace Planner

/-- C `isspace` in the C locale: space, tab, newline, vertical tab, form feed,
carriage return. -/
def isspace (c : Char) : Bool :=
  c = ' ' || c = '\t' || c = '\n' || c = Char.ofNat 11 || c = Char.ofNat 12 || c = '\r'

/-- C `isdigit`. -/
def isdigit (c : Char) : Bool :=
  '0' ≤ c && c ≤ '9'

/-- C `tolower` on ASCII, as used by `strcasecmp`/`strncasecmp`. -/
def tolower (c : Char) : Char :=
  if 'A' ≤ c && c ≤ 'Z' then Char.ofNat (c.toNat + 32) else c

/-- Numeric value of a (non-empty) digit string, most significant first. -/
def digitsToInt (ds : List Char) : Int :=
  ds.foldl (fun a c => a * 10 + ((c.toNat : Int) - 48)) 0

/-- Digit-consuming tail of C `strtol` base 10: read the maximal digit span
after the optional sign; `none` models "no digits, *endptr left at the start
of the input" (C leaves `end == begin` in that case). -/
def strtolDigits (r : List Char) (neg : Bool) : Option (Int × List Char) :=
  if r.takeWhile isdigit = [] then none
  else some ((if neg then -digitsToInt (r.takeWhile isdigit)
              else digitsToInt (r.takeWhile isdigit)),
             r.dropWhile isdigit)

/-- C `strtol(begin, &end, 10)`: skip whitespace, optional sign, digits.
`none` models the no-conversion case where `end == begin`. -/
def strtol10 (s : List Char) : Option (Int × List Char) :=
  let s1 := s.dropWhile isspace
  if s1.head? = some '-' then strtolDigits s1.tail true
  else if s1.head? = some '+' then strtolDigits s1.tail false
  else strtolDigits s1 false

/-- planner.c `get_tenths` (lines 865-886): value in tenths ("10.2" is 102,
"9" is 90); only the first fraction digit counts, the rest are skipped.
`none` is the C return value -1 on the paths that do not set `*endp`. -/
def get_tenths (begin : List Char) : Option (Int × List Char) :=
  match strtol10 begin with
  | none => none
  | some (v, e) =>
    if e.head? = some '.' then
      match e.tail with
      | [] => none
      | c :: e3 =>
        if isdigit c then some (v * 10 + ((c.toNat : Int) - 48), e3.dropWhile isdigit)
        else none
    else some (v * 10, e)

/-- planner.c `get_permille` (lines 888-897): tenths followed by an optional
percent sign (only skipped when the value is non-negative, as in the C). -/
def get_permille (begin : List Char) : Option (Int × List Char) :=
  match get_tenths begin with
  | none => none
  | some (v, e) =>
    if 0 ≤ v then
      if e.head? = some '%' then some (v, e.tail) else some (v, e)
    else some (v, e)

/-- Gas mix in permille of O2 and He (struct gasmix of dive.h, whose
`fraction_t` members are permille integers). -/
structure gasmix where
  o2 : Int
  he : Int
deriving DecidableEq, Repr

/-- Lower-case characters of the (untranslated) literal "air". -/
def air_chars : List Char := ['a', 'i', 'r']

/-- Lower-case characters of the (untranslated) literal "ean". -/
def ean_chars : List Char := ['e', 'a', 'n']

/-- Shared tail of planner.c `validate_gas` (lines 926-939): reject trailing
non-whitespace, validate the ranges, and only then write the out-parameter. -/
def gas_finish (o2 he : Int) (rest : List Char) (gas : gasmix) : Int × gasmix :=
  if rest.dropWhile isspace ≠ [] then (0, gas)
  else if o2 < 1 ∨ o2 > 1000 ∨ he < 0 ∨ o2 + he > 1000 then (0, gas)
  else (1, ⟨o2, he⟩)

/-- planner.c `validate_gas` (lines 899-940).  The result pairs the C return
value with the (possibly updated) out-parameter `*gas`.  `strcasecmp` with
"air" compares the whole remaining string; `strncasecmp` with "ean" compares
the first three characters; on a failed `get_permille` the cursor is left
where it was (the C helper does not write `*endp` on failure), which the
`gas_finish` arguments below reproduce. -/
def validate_gas (text : Option (List Char)) (gas : gasmix) : Int × gasmix :=
  match text with
  | none => (0, gas)
  | some t0 =>
    let t := t0.dropWhile isspace
    if t = [] then (0, gas)
    else if t.map tolower = air_chars then
      gas_finish 209 0 (t.drop 3) gas
    else if (t.map tolower).take 3 = ean_chars then
      match get_permille (t.drop 3) with
      | none => gas_finish (-1) 0 t gas
      | some (o2, rest) => gas_finish o2 0 rest gas
    else
      match get_permille t with
      | none => gas_finish (-1) 0 t gas
      | some (o2, rest) =>
        if rest.head? = some '/' then
          match get_permille rest.tail with
          | none => gas_finish o2 (-1) rest gas
          | some (he, rest2) => gas_finish o2 he rest2 gas
        else gas_finish o2 0 rest gas

/-- planner.c `validate_po2` (lines 942-963): parse tenths, reject negatives
and trailing non-whitespace, multiply by 100 into `*mbar_po2`. -/
def validate_po2 (text : Option (List Char)) (mbar_po2 : Int) : Int × Int :=
  match text with
  | none => (0, mbar_po2)
  | some t =>
    match get_tenths t with
    | none => (0, mbar_po2)
    | some (po2, rest) =>
      if po2 < 0 then (0, mbar_po2)
      else if rest.dropWhile isspace ≠ [] then (0, mbar_po2)
      else (1, po2 * 100)

/-! Reference parser written from the (amended) specification grammar, to be
compared with `validate_gas` above.  It is phrased as a partial-credit
grammar: sign and integer, fraction, percent, the three alternatives, then
the trailing-junk and range checks, returning `some (o2, he)` exactly on the
accepted inputs. -/

/-- Grammar sign: an optional leading plus or minus, as a multiplier. -/
def specSign (s : List Char) : Int × List Char :=
  if s.head? = some '-' then (-1, s.tail)
  else if s.head? = some '+' then (1, s.tail)
  else (1, s)

/-- Grammar integer: optional whitespace, optional sign, one or more digits
(the strtol convention the amended claim names). -/
def specInteger (s : List Char) : Option (Int × List Char) :=
  let w := s.dropWhile isspace
  let p := specSign w
  if (p.2.takeWhile isdigit) = [] then none
  else some (p.1 * digitsToInt (p.2.takeWhile isdigit), p.2.dropWhile isdigit)

/-- Grammar fraction: an optional "." followed by at least one digit, of
which only the first contributes a tenth; the value before the dot counts
in tenths. -/
def specFraction (v : Int) (e : List Char) : Option (Int × List Char) :=
  if e.head? = some '.' then
    match e.tail with
    | [] => none
    | c :: r =>
      if isdigit c then some (10 * v + ((c.toNat : Int) - 48), r.dropWhile isdigit)
      else none
  else some (10 * v, e)

/-- Grammar tenths: integer then fraction. -/
def specTenths (s : List Char) : Option (Int × List Char) :=
  match specInteger s with
  | none => none
  | some (n, e) => specFraction n e

/-- Grammar permille: tenths then an optional percent sign (which the code
only consumes for non-negative values). -/
def specPermille (s : List Char) : Option (Int × List Char) :=
  match specTenths s with
  | none => none
  | some (v, e) =>
    if v < 0 then some (v, e)
    else if e.head? = some '%' then some (v, e.tail) else some (v, e)

/-- Grammar acceptance check: nothing but whitespace may trail, and
1 ≤ o2 ≤ 1000, 0 ≤ he, o2 + he ≤ 1000. -/
def specGasCheck (o2 he : Int) (rest : List Char) : Option (Int × Int) :=
  if rest.dropWhile isspace = [] ∧ 1 ≤ o2 ∧ o2 ≤ 1000 ∧ 0 ≤ he ∧ o2 + he ≤ 1000
  then some (o2, he) else none

/-- Reference gas grammar: after leading whitespace, either the whole
remainder is "air" (case-insensitively), or "ean" followed by permille,
or permille optionally followed by "/" permille. -/
def specGasParse (t0 : List Char) : Option (Int × Int) :=
  let t := t0.dropWhile isspace
  if t = [] then none
  else if t.map tolower = air_chars then
    specGasCheck 209 0 (t.drop 3)
  else if (t.map tolower).take 3 = ean_chars then
    match specPermille (t.drop 3) with
    | none => none
    | some (o2, r) => specGasCheck o2 0 r
  else
    match specPermille t with
    | none => none
    | some (o2, r) =>
      if r.head? = some '/' then
        match specPermille r.tail with
        | none => none
        | some (he, r2) => specGasCheck o2 he r2
      else specGasCheck o2 0 r

/-! Gas and cylinder model.  `gasmix_distance`, `gasmix_is_null` and
`cylinder_nodata` live in dive.h / dive.c, which is not part of this
repository snapshot; they are modelled from the specification. -/

/-- Modelled from the spec: `gas_distance(a, b)` of dive.c (not under src/)
is the sum of the absolute permille differences of the components. -/
def gasmix_distance (a b : gasmix) : Int :=
  (a.o2 - b.o2).natAbs + (a.he - b.he).natAbs

/-- Modelled from the spec: `gas_is_null(g)` of dive.h (not under src/) is
o2 == 0 and he == 0. -/
def gasmix_is_null (g : gasmix) : Bool :=
  g.o2 = 0 && g.he = 0

/-- Cylinder, with the fields the planner claims consult: whether a
description is set, size, working pressure, and the gas mix. -/
structure cylinder_t where
  hasDescription : Bool
  size_mliter : Int
  workingpressure_mbar : Int
  gasmix : gasmix
deriving DecidableEq, Repr

/-- Modelled from the spec: `cylinder_nodata(cyl)` of dive.h (not under
src/) — the cylinder has data when any of description, size, working
pressure, or gas are set. -/
def cylinder_nodata (c : cylinder_t) : Bool :=
  !c.hasDescription && c.size_mliter = 0 && c.workingpressure_mbar = 0
    && gasmix_is_null c.gasmix

/-- planner.c `get_gasidx` loop body (lines 107-115), recursing over the
cylinder array with the running index. -/
def get_gasidx_from (cyls : List cylinder_t) (mix : gasmix) (idx : Int) : Int :=
  match cyls with
  | [] => -1
  | c :: rest =>
    if gasmix_distance c.gasmix mix < 200 then idx
    else get_gasidx_from rest mix (idx + 1)

/-- planner.c `get_gasidx` (lines 107-115): first index whose gas is within
distance 200 of the requested mix, with no has-data test; -1 when none. -/
def get_gasidx (cyls : List cylinder_t) (mix : gasmix) : Int :=
  get_gasidx_from cyls mix 0

/-- planner.c `verify_gas_exists` loop body (lines 200-214), skipping
cylinders without data. -/
def verify_gas_exists_from (cyls : List cylinder_t) (mix : gasmix) (idx : Int) : Int :=
  match cyls with
  | [] => -1
  | c :: rest =>
    if cylinder_nodata c then verify_gas_exists_from rest mix (idx + 1)
    else if gasmix_distance c.gasmix mix < 200 then idx
    else verify_gas_exists_from rest mix (idx + 1)

/-- planner.c `verify_gas_exists` (lines 200-214): first index with data
whose gas is within distance 200 of the requested mix; -1 when none. -/
def verify_gas_exists (cyls : List cylinder_t) (mix : gasmix) : Int :=
  verify_gas_exists_from cyls mix 0

/-- Gas lookup with fallback as written twice in planner.c: in
`tissue_at_end` (lines 156-159) and in `plan` (lines 708-711).  When
`get_gasidx` finds no cylinder the code reports a "Can't find gas" error
(the Bool component) and substitutes cylinder index 0, then proceeds. -/
def gasidx_with_fallback (cyls : List cylinder_t) (mix : gasmix) : Int × Bool :=
  if get_gasidx cyls mix = -1 then (0, true) else (get_gasidx cyls mix, false)

/-- planner.c `ascend_velocity` (lines 654-668), in mm per second: the
returned values are the C integer divisions 1000/60, 9000/60 and 6000/60. -/
def ascend_velocity (depth avg_depth bottom_time : Int) : Int :=
  if depth ≤ 6000 then 1000 / 60
  else if depth * 4 > avg_depth * 3 then 9000 / 60
  else 6000 / 60

/-! Plan waypoint list. -/

/-- struct divedatapoint: absolute time once the point is in a plan, depth,
gas, setpoint, entered flag. -/
structure divedatapoint where
  time : Int
  depth : Int
  gasmix : gasmix
  po2 : Int
  entered : Bool
deriving DecidableEq, Repr

/-- The `lasttime` computation of planner.c `add_to_end_of_diveplan`
(lines 386-392): the running maximum of the times in the list, from 0. -/
def diveplan_lasttime (dps : List divedatapoint) : Int :=
  dps.foldl (fun acc p => if p.time > acc then p.time else acc) 0

/-- planner.c `add_to_end_of_diveplan` (lines 382-396): append, and shift a
non-zero relative time by the maximum existing absolute time; the shift is
skipped when the list was empty (`ldp` stays NULL) or the time is zero. -/
def add_to_end_of_diveplan (dps : List divedatapoint) (dp : divedatapoint) :
    List divedatapoint :=
  if dps ≠ [] ∧ dp.time ≠ 0 then
    dps ++ [{ dp with time := dp.time + diveplan_lasttime dps }]
  else dps ++ [dp]

/-- planner.c `create_dp` (lines 350-362). -/
def create_dp (time_incr depth : Int) (gasmix : gasmix) (po2 : Int) : divedatapoint :=
  ⟨time_incr, depth, gasmix, po2, false⟩

/-- planner.c `plan_add_segment` (lines 398-404). -/
def plan_add_segment (dps : List divedatapoint) (duration depth : Int)
    (gasmix : gasmix) (po2 : Int) (entered : Bool) : List divedatapoint :=
  add_to_end_of_diveplan dps { create_dp duration depth gasmix po2 with entered := entered }

/-- Arguments of one `plan_add_segment` call made during a planning run. -/
structure plansegment where
  duration : Int
  depth : Int
  gas : gasmix
  po2 : Int
  entered : Bool
deriving DecidableEq, Repr

/-- A planning run, as far as the diveplan list is concerned: the `plan`
scheduler of planner.c only ever extends the list through
`plan_add_segment`, so a run is a fold of such calls. -/
def run_plan_appends (dps : List divedatapoint) (segs : List plansegment) :
    List divedatapoint :=
  segs.foldl (fun acc s => plan_add_segment acc s.duration s.depth s.gas s.po2 s.entered) dps

/-- The absolute times of a plan's waypoints with the zero-time gas
declarations filtered out — the sequence the spec's invariant speaks about. -/
def nonzero_times (dps : List divedatapoint) : List Int :=
  (dps.filter (fun dp => dp.time != 0)).map divedatapoint.time

/-- planner.c `plan`, the `add_deco == false` branch (lines 716-726): the
ascent loop is bypassed and a single segment to the surface is appended,
with relative duration depth / 75 (C truncating division). -/
def plan_nodeco (dps : List divedatapoint) (depth : Int) (gas : gasmix) (po2 : Int) :
    List divedatapoint :=
  plan_add_segment dps (Int.tdiv depth 75) 0 gas po2 false

/-! Stop-level merge. -/

/-- The merge loop of planner.c `sort_stops` (lines 471-496), phrased on the
reversed arrays: the C walks both input arrays from their last element down
and fills the output from its last slot down, so consuming the reversed
lists head-first and appending each emitted depth after the recursive result
reproduces the array it builds (highest index last).  The first two arms are
the two drain loops (lines 486-495). -/
def merge_stops : List Int → List Int → List Int
  | rds, [] => rds.reverse
  | [], g :: rgs => (g :: rgs).reverse
  | d :: rds, g :: rgs =>
    if g < d then merge_stops rds (g :: rgs) ++ [d]
    else if d = g then merge_stops rds rgs ++ [d]
    else merge_stops (d :: rds) rgs ++ [g]
termination_by rds rgs => rds.length + rgs.length

/-- planner.c `sort_stops` (lines 459-509): with no gas changes the deco
stops are copied verbatim (lines 466-469); otherwise the merged depths
occupy the top of the `dnr + gnr` output slots and every slot left over at
the front is filled with 0 (lines 497-498). -/
def sort_stops (dstops gstops : List Int) : List Int :=
  if gstops.length = 0 then dstops
  else
    List.replicate (dstops.length + gstops.length
        - (merge_stops dstops.reverse gstops.reverse).length) 0
      ++ merge_stops dstops.reverse gstops.reverse

/-! Theorems.  First the helper lemmas relating the embedded parser to the
reference grammar, then the per-claim theorems. -/

theorem strtol10_eq_specInteger (s : List Char) : strtol10 s = specInteger s := by
  by_cases h1 : (s.dropWhile isspace).head? = some '-' <;>
    by_cases h2 : (s.dropWhile isspace).head? = some '+' <;>
      simp [strtol10, specInteger, specSign, strtolDigits, h1, h2, neg_one_mul, one_mul]

theorem get_tenths_eq_specTenths (s : List Char) : get_tenths s = specTenths s := by
  unfold get_tenths specTenths
  rw [strtol10_eq_specInteger]
  cases h : specInteger s with
  | none => rfl
  | some p =>
    obtain ⟨v, e⟩ := p
    by_cases hd : e.head? = some '.'
    · cases ht : e.tail with
      | nil => simp [specFraction, hd, ht]
      | cons c r =>
        by_cases hc : isdigit c <;> simp [specFraction, hd, ht, hc, mul_comm]
    · simp [specFraction, hd, mul_comm]

theorem get_permille_eq_specPermille (s : List Char) : get_permille s = specPermille s := by
  unfold get_permille specPermille
  rw [get_tenths_eq_specTenths]
  cases h : specTenths s with
  | none => rfl
  | some p =>
    obtain ⟨v, e⟩ := p
    by_cases hv : 0 ≤ v
    · have hv2 : ¬ v < 0 := by omega
      simp [hv, hv2]
    · have hv2 : v < 0 := by omega
      simp [hv, hv2]

theorem gas_finish_eq_specGasCheck (o2 he : Int) (rest : List Char) (g : gasmix) :
    gas_finish o2 he rest g =
      (match specGasCheck o2 he rest with
       | some p => (1, (⟨p.1, p.2⟩ : gasmix))
       | none => (0, g)) := by
  unfold gas_finish specGasCheck
  split_ifs <;> simp_all <;> omega

theorem gas_finish_neg_o2 (o2 he : Int) (rest : List Char) (g : gasmix) (h : o2 < 1) :
    gas_finish o2 he rest g = (0, g) := by
  unfold gas_finish
  split_ifs with h1 h2 <;> first | rfl | omega

theorem gas_finish_neg_he (o2 he : Int) (rest : List Char) (g : gasmix) (h : he < 0) :
    gas_finish o2 he rest g = (0, g) := by
  unfold gas_finish
  split_ifs with h1 h2 <;> first | rfl | omega

theorem validate_gas_eq_spec (t : List Char) (g : gasmix) :
    validate_gas (some t) g =
      (match specGasParse t with
       | some p => (1, (⟨p.1, p.2⟩ : gasmix))
       | none => (0, g)) := by
  unfold validate_gas specGasParse
  by_cases h0 : t.dropWhile isspace = []
  · simp [h0]
  · simp only [h0, if_neg, if_false]
    by_cases hair : (t.dropWhile isspace).map tolower = air_chars
    · simp only [hair, if_true, if_pos]
      exact gas_finish_eq_specGasCheck _ _ _ _
    · simp only [hair, if_neg, if_false]
      by_cases hean : ((t.dropWhile isspace).map tolower).take 3 = ean_chars
      · simp only [hean, if_true, if_pos]
        rw [← get_permille_eq_specPermille]
        cases hp : get_permille ((t.dropWhile isspace).drop 3) with
        | none => simp [gas_finish_neg_o2 (-1) 0 _ g (by omega)]
        | some p =>
          obtain ⟨o2, rest⟩ := p
          exact gas_finish_eq_specGasCheck _ _ _ _
      · simp only [hean, if_neg, if_false]
        rw [← get_permille_eq_specPermille]
        cases hp : get_permille (t.dropWhile isspace) with
        | none => simp [gas_finish_neg_o2 (-1) 0 _ g (by omega)]
        | some p =>
          obtain ⟨o2, rest⟩ := p
          by_cases hs : rest.head? = some '/'
          · simp only [hs, if_true, if_pos]
            rw [← get_permille_eq_specPermille]
            cases hp2 : get_permille rest.tail with
            | none => simp [gas_finish_neg_he o2 (-1) rest g (by omega)]
            | some q =>
              obtain ⟨he, rest2⟩ := q
              exact gas_finish_eq_specGasCheck _ _ _ _
          · simp only [hs, if_neg, if_false]
            exact gas_finish_eq_specGasCheck _ _ _ _


/-- C4 counterexample: at depth 1000 mm (≤ 6 m) the returned rate, converted
to mm per minute, is 960 and not the 1000 mm per minute (1 m/min) the claim
states — the C computes 1000/60 in integer arithmetic. -/
theorem ascend_velocity_c4_counterexample :
    ascend_velocity 1000 10000 600 * 60 ≠ 1000 := by decide

/-- C4 (amended): ascend_velocity returns 1000/60 = 16 mm/s (0.96 m/min, by
integer truncation) when depth ≤ 6 m, 9000/60 = 150 mm/s (9 m/min) when
depth · 4 > avg_depth · 3, and 6000/60 = 100 mm/s (6 m/min) otherwise. -/
theorem ascend_velocity_c4 (depth avg_depth bottom_time : Int) :
    ascend_velocity depth avg_depth bottom_time =
      if depth ≤ 6000 then 16 else if depth * 4 > avg_depth * 3 then 150 else 100 := by
  unfold ascend_velocity
  norm_num

/-- C3: with add_deco = false the scheduler appends exactly one synthesized
segment: it terminates at depth 0, is not user-entered, and its relative
duration is depth / 75 seconds (visible as the absolute time after the
append shift of `add_to_end_of_diveplan`). -/
theorem plan_nodeco_c3 (dps : List divedatapoint) (depth : Int) (gas : gasmix) (po2 : Int) :
    plan_nodeco dps depth gas po2 =
      dps ++ [⟨(if dps ≠ [] ∧ Int.tdiv depth 75 ≠ 0
                then Int.tdiv depth 75 + diveplan_lasttime dps
                else Int.tdiv depth 75), 0, gas, po2, false⟩] := by
  unfold plan_nodeco plan_add_segment add_to_end_of_diveplan create_dp
  split_ifs <;> simp

theorem lasttime_foldl_le (l : List divedatapoint) : ∀ acc : Int,
    acc ≤ l.foldl (fun a p => if p.time > a then p.time else a) acc := by
  induction l with
  | nil => intro acc; simp
  | cons p l ih =>
    intro acc
    have h1 : acc ≤ (if p.time > acc then p.time else acc) := by split_ifs <;> omega
    calc acc ≤ (if p.time > acc then p.time else acc) := h1
      _ ≤ _ := ih _

theorem lasttime_foldl_mem_le (l : List divedatapoint) : ∀ (acc : Int) (q : divedatapoint),
    q ∈ l → q.time ≤ l.foldl (fun a p => if p.time > a then p.time else a) acc := by
  induction l with
  | nil => intro acc q hq; simp at hq
  | cons p l ih =>
    intro acc q hq
    rcases List.mem_cons.1 hq with h | h
    · subst h
      have h1 : q.time ≤ (if q.time > acc then q.time else acc) := by split_ifs <;> omega
      calc q.time ≤ _ := h1
        _ ≤ _ := lasttime_foldl_le l _
    · exact ih _ q h

theorem lasttime_foldl_eq_or_mem (l : List divedatapoint) : ∀ acc : Int,
    l.foldl (fun a p => if p.time > a then p.time else a) acc = acc
      ∨ l.foldl (fun a p => if p.time > a then p.time else a) acc
          ∈ l.map divedatapoint.time := by
  induction l with
  | nil => intro acc; left; rfl
  | cons p l ih =>
    intro acc
    rcases ih (if p.time > acc then p.time else acc) with h | h
    · by_cases hp : p.time > acc
      · right
        simp only [List.foldl_cons, List.map_cons, List.mem_cons]
        left
        rw [h]
        simp [hp]
      · left
        simp only [List.foldl_cons]
        rw [h]
        simp [hp]
    · right
      simp only [List.foldl_cons, List.map_cons, List.mem_cons]
      right
      exact h

theorem le_diveplan_lasttime (dps : List divedatapoint) (q : divedatapoint) (hq : q ∈ dps) :
    q.time ≤ diveplan_lasttime dps :=
  lasttime_foldl_mem_le dps 0 q hq

theorem diveplan_lasttime_nonneg (dps : List divedatapoint) : 0 ≤ diveplan_lasttime dps :=
  lasttime_foldl_le dps 0

theorem diveplan_lasttime_mem (dps : List divedatapoint) (hne : dps ≠ [])
    (h : ∀ q ∈ dps, 0 ≤ q.time) :
    diveplan_lasttime dps ∈ dps.map divedatapoint.time := by
  rcases lasttime_foldl_eq_or_mem dps 0 with h0 | hm
  · obtain ⟨p, l, rfl⟩ : ∃ p l, dps = p :: l := by
      cases dps with
      | nil => exact absurd rfl hne
      | cons p l => exact ⟨p, l, rfl⟩
    have h1 : p.time ≤ diveplan_lasttime (p :: l) := le_diveplan_lasttime _ p (by simp)
    have h2 : 0 ≤ p.time := h p (by simp)
    have h3 : diveplan_lasttime (p :: l) = 0 := h0
    have h4 : p.time = diveplan_lasttime (p :: l) := by omega
    rw [← h4]
    simp
  · exact hm

/-- C7: appending a waypoint with non-zero duration d places it at absolute
time d plus the maximum time already in the list (`diveplan_lasttime`, which
the last two conjuncts identify as that maximum when times are non-negative),
while a zero-duration waypoint is appended unshifted, keeping its time 0. -/
theorem add_to_end_of_diveplan_c7 (dps : List divedatapoint) (dp : divedatapoint)
    (h : ∀ q ∈ dps, 0 ≤ q.time) :
    (dp.time ≠ 0 → add_to_end_of_diveplan dps dp
        = dps ++ [{ dp with time := dp.time + diveplan_lasttime dps }])
    ∧ (dp.time = 0 → add_to_end_of_diveplan dps dp = dps ++ [dp])
    ∧ (∀ q ∈ dps, q.time ≤ diveplan_lasttime dps)
    ∧ (dps ≠ [] → diveplan_lasttime dps ∈ dps.map divedatapoint.time) := by
  refine ⟨?_, ?_, fun q hq => le_diveplan_lasttime dps q hq,
    fun hne => diveplan_lasttime_mem dps hne h⟩
  · intro ht
    unfold add_to_end_of_diveplan
    by_cases hne : dps = []
    · subst hne
      simp only [diveplan_lasttime, List.foldl_nil, add_zero]
      simp [ht]
    · simp [hne, ht]
  · intro ht
    unfold add_to_end_of_diveplan
    simp [ht]

/-- C7 witness: a one-point plan at time 10 receives a 7-second segment at
absolute time 17. -/
theorem add_to_end_of_diveplan_c7_witness :
    add_to_end_of_diveplan [⟨10, 5000, ⟨209, 0⟩, 0, true⟩] ⟨7, 0, ⟨209, 0⟩, 0, false⟩
      = [⟨10, 5000, ⟨209, 0⟩, 0, true⟩, ⟨17, 0, ⟨209, 0⟩, 0, false⟩] :=
  (add_to_end_of_diveplan_c7 _ _ (by decide)).1 (by decide)

theorem get_gasidx_from_spec (cyls : List cylinder_t) (mix : gasmix) : ∀ i : Int,
    get_gasidx_from cyls mix i =
      (match cyls.findIdx? (fun c => decide (gasmix_distance c.gasmix mix < 200)) with
       | some j => i + j
       | none => -1) := by
  induction cyls with
  | nil => intro i; rfl
  | cons c rest ih =>
    intro i
    by_cases hc : gasmix_distance c.gasmix mix < 200
    · simp [get_gasidx_from, hc, List.findIdx?_cons]
    · simp only [get_gasidx_from, hc, if_false, List.findIdx?_cons, decide_eq_true_eq]
      rw [ih (i + 1)]
      cases h : rest.findIdx? (fun c => decide (gasmix_distance c.gasmix mix < 200)) with
      | none => simp [hc, h]
      | some j =>
        simp [hc, h]
        ring

theorem verify_gas_exists_from_spec (cyls : List cylinder_t) (mix : gasmix) : ∀ i : Int,
    verify_gas_exists_from cyls mix i =
      (match cyls.findIdx? (fun c => !cylinder_nodata c
            && decide (gasmix_distance c.gasmix mix < 200)) with
       | some j => i + j
       | none => -1) := by
  induction cyls with
  | nil => intro i; rfl
  | cons c rest ih =>
    intro i
    by_cases hn : cylinder_nodata c
    · simp only [verify_gas_exists_from, hn, if_true, List.findIdx?_cons, Bool.not_true,
        Bool.false_and]
      rw [ih (i + 1)]
      cases h : rest.findIdx? (fun c => !cylinder_nodata c
          && decide (gasmix_distance c.gasmix mix < 200)) with
      | none => simp [h]
      | some j =>
        simp [h]
        ring
    · by_cases hc : gasmix_distance c.gasmix mix < 200
      · simp [verify_gas_exists_from, hn, hc, List.findIdx?_cons]
      · simp only [verify_gas_exists_from, hn, if_false, hc, List.findIdx?_cons, Bool.not_false,
          Bool.true_and, decide_eq_true_eq]
        rw [ih (i + 1)]
        cases h : rest.findIdx? (fun c => !cylinder_nodata c
            && decide (gasmix_distance c.gasmix mix < 200)) with
        | none => simp [hc, h]
        | some j =>
          simp [hc, h]
          ring

/-- C6 counterexample: with cylinder 0 holding a far gas (500,0) and
cylinder 1 empty (no data, null gas), the request (100,0) makes `get_gasidx`
— the find-cylinder lookup used by plan, tissue_at_end and analyze_gaslist —
return index 1, a cylinder without data, where the claim requires NONE;
`verify_gas_exists` (the variant that does check data) returns -1. -/
theorem find_cylinder_c6_counterexample :
    get_gasidx [⟨true, 11000, 232000, ⟨500, 0⟩⟩, ⟨false, 0, 0, ⟨0, 0⟩⟩] ⟨100, 0⟩ = 1
    ∧ cylinder_nodata ⟨false, 0, 0, ⟨0, 0⟩⟩ = true
    ∧ verify_gas_exists [⟨true, 11000, 232000, ⟨500, 0⟩⟩, ⟨false, 0, 0, ⟨0, 0⟩⟩] ⟨100, 0⟩ = -1 := by
  decide

/-- C6 (amended): `verify_gas_exists` returns the first index whose cylinder
has data and whose gas is within distance 200 of the mix, else -1, while
`get_gasidx` returns the first index within distance 200 with no has-data
test, else -1. -/
theorem find_cylinder_c6 (cyls : List cylinder_t) (mix : gasmix) :
    get_gasidx cyls mix =
      (match cyls.findIdx? (fun c => decide (gasmix_distance c.gasmix mix < 200)) with
       | some j => (j : Int)
       | none => -1)
    ∧ verify_gas_exists cyls mix =
      (match cyls.findIdx? (fun c => !cylinder_nodata c
            && decide (gasmix_distance c.gasmix mix < 200)) with
       | some j => (j : Int)
       | none => -1) := by
  constructor
  · rw [get_gasidx, get_gasidx_from_spec]
    cases h : cyls.findIdx? (fun c => decide (gasmix_distance c.gasmix mix < 200)) with
    | none => rfl
    | some j => simp
  · rw [verify_gas_exists, verify_gas_exists_from_spec]
    cases h : cyls.findIdx? (fun c => !cylinder_nodata c
        && decide (gasmix_distance c.gasmix mix < 200)) with
    | none => rfl
    | some j => simp

theorem get_gasidx_from_all_far (cyls : List cylinder_t) (mix : gasmix)
    (h : ∀ c ∈ cyls, 200 ≤ gasmix_distance c.gasmix mix) : ∀ i : Int,
    get_gasidx_from cyls mix i = -1 := by
  induction cyls with
  | nil => intro i; rfl
  | cons c rest ih =>
    intro i
    have hc : ¬ gasmix_distance c.gasmix mix < 200 := by
      have := h c (by simp)
      omega
    simp only [get_gasidx_from, hc, if_false]
    exact ih (fun c hc => h c (by simp [hc])) (i + 1)

/-- C10: when every cylinder's gas is at distance at least 200 from the
requested mix, the lookup-with-fallback shared by tissue_at_end and plan
reports the "Can't find gas" error (true) and substitutes cylinder index 0,
so both callers continue their run with that cylinder. -/
theorem gas_fallback_c10 (cyls : List cylinder_t) (mix : gasmix)
    (h : ∀ c ∈ cyls, 200 ≤ gasmix_distance c.gasmix mix) :
    gasidx_with_fallback cyls mix = (0, true) := by
  unfold gasidx_with_fallback get_gasidx
  rw [get_gasidx_from_all_far cyls mix h 0]
  simp

/-- C10 witness: a single oxygen cylinder and a heliox request. -/
theorem gas_fallback_c10_witness :
    gasidx_with_fallback [⟨true, 11000, 232000, ⟨1000, 0⟩⟩] ⟨209, 500⟩ = (0, true) :=
  gas_fallback_c10 _ _ (by decide)

/-- C8: whenever validate_gas or validate_po2 returns 0, the out-parameter
keeps its prior value. -/
theorem validate_parsers_c8 :
    (∀ (text : Option (List Char)) (g : gasmix),
      (validate_gas text g).1 = 0 → (validate_gas text g).2 = g)
    ∧ (∀ (text : Option (List Char)) (m : Int),
      (validate_po2 text m).1 = 0 → (validate_po2 text m).2 = m) := by
  constructor
  · intro text g
    cases text with
    | none => intro _; rfl
    | some t =>
      rw [validate_gas_eq_spec]
      cases h : specGasParse t with
      | none => intro _; rfl
      | some p => simp
  · intro text m
    cases text with
    | none => intro _; rfl
    | some t =>
      cases h : get_tenths t with
      | none => simp [validate_po2, h]
      | some p =>
        obtain ⟨po2, rest⟩ := p
        simp only [validate_po2, h]
        split_ifs <;> simp

/-- C8 witness: the malformed pO₂ string "1.4x" fails and leaves 999 in
place. -/
theorem validate_parsers_c8_witness :
    (validate_po2 (some ("1.4x".toList)) 999).1 = 0
    ∧ (validate_po2 (some ("1.4x".toList)) 999).2 = 999 :=
  ⟨by decide, validate_parsers_c8.2 (some ("1.4x".toList)) 999 (by decide)⟩

/-- C5 counterexample: "air " (the literal followed by a space) satisfies the
claim's acceptance condition — after leading whitespace it parses as "air"
with only whitespace trailing and the ranges hold — yet validate_gas rejects
it, because strcasecmp compares the entire remaining string; plain "air" is
accepted. -/
theorem validate_gas_c5_counterexample :
    validate_gas (some ("air ".toList)) ⟨0, 0⟩ = (0, ⟨0, 0⟩)
    ∧ validate_gas (some ("air".toList)) ⟨0, 0⟩ = (1, ⟨209, 0⟩) := by
  decide

/-- C5 (amended): validate_gas accepts exactly the inputs of the reference
grammar `specGasParse` — after leading whitespace, either the entire
remainder is "air" case-insensitively (209,0), or "ean" followed by tenths
(he = 0), or tenths optionally followed by "/" tenths, where tenths are read
strtol-style (optional whitespace and sign before the digits, optional
fraction with only the first digit counting, optional trailing percent);
after the parse only whitespace may trail and the ranges
1 ≤ o2 ≤ 1000, 0 ≤ he, o2 + he ≤ 1000 must hold — and the claim's example
inputs behave as listed. -/
theorem validate_gas_c5 :
    (∀ (t : List Char) (g : gasmix),
      validate_gas (some t) g =
        (match specGasParse t with
         | some p => (1, (⟨p.1, p.2⟩ : gasmix))
         | none => (0, g)))
    ∧ validate_gas (some ("air".toList)) ⟨0, 0⟩ = (1, ⟨209, 0⟩)
    ∧ validate_gas (some ("  EAN32 ".toList)) ⟨0, 0⟩ = (1, ⟨320, 0⟩)
    ∧ validate_gas (some ("21/35".toList)) ⟨0, 0⟩ = (1, ⟨210, 350⟩)
    ∧ validate_gas (some ("18/45%".toList)) ⟨0, 0⟩ = (1, ⟨180, 450⟩)
    ∧ (validate_gas (some ("21/80".toList)) ⟨0, 0⟩).1 = 0
    ∧ (validate_gas (some ("".toList)) ⟨0, 0⟩).1 = 0 :=
  ⟨validate_gas_eq_spec, by decide, by decide, by decide, by decide, by decide, by decide⟩


theorem plan_add_segment_preserves_inc (dps : List divedatapoint) (du de : Int) (g : gasmix)
    (po2 : Int) (en : Bool) (hd : 0 ≤ du)
    (h : (nonzero_times dps).Pairwise (· < ·)) :
    (nonzero_times (plan_add_segment dps du de g po2 en)).Pairwise (· < ·) := by
  unfold plan_add_segment create_dp add_to_end_of_diveplan
  by_cases h0 : du = 0
  · subst h0
    simp [nonzero_times, List.filter_append] at h ⊢
    exact h
  · by_cases hne : dps = []
    · subst hne
      simp [nonzero_times, h0]
    · have hL : 0 ≤ diveplan_lasttime dps := diveplan_lasttime_nonneg dps
      have hne2 : du + diveplan_lasttime dps ≠ 0 := by omega
      rw [if_pos ⟨hne, h0⟩]
      unfold nonzero_times at h ⊢
      rw [List.filter_append, List.map_append]
      apply List.pairwise_append.2
      refine ⟨h, ?_, ?_⟩
      · simp [hne2]
      · intro a ha b hb
        simp only [List.mem_map, List.mem_filter] at ha
        obtain ⟨q, ⟨hq, _⟩, rfl⟩ := ha
        have h1 : q.time ≤ diveplan_lasttime dps := le_diveplan_lasttime dps q hq
        simp only [List.filter_cons, List.filter_nil] at hb
        simp [hne2] at hb
        omega

theorem run_plan_appends_inc (segs : List plansegment) : ∀ dps : List divedatapoint,
    (∀ s ∈ segs, 0 ≤ s.duration) →
    (nonzero_times dps).Pairwise (· < ·) →
    (nonzero_times (run_plan_appends dps segs)).Pairwise (· < ·) := by
  induction segs with
  | nil => intro dps _ h; exact h
  | cons s segs ih =>
    intro dps hs h
    have h1 := plan_add_segment_preserves_inc dps s.duration s.depth s.gas s.po2 s.entered
      (hs s (by simp)) h
    exact ih _ (fun q hq => hs q (by simp [hq])) h1

/-- C2: after any planning run — any sequence of plan_add_segment calls with
non-negative relative durations, which is the only way planner.c `plan` and
the plan editor extend the list — the absolute times of the waypoints, with
the zero-time gas declarations filtered out, are strictly increasing in list
order. -/
theorem plan_times_c2 (segs : List plansegment) (h : ∀ s ∈ segs, 0 ≤ s.duration) :
    (nonzero_times (run_plan_appends [] segs)).Pairwise (· < ·) :=
  run_plan_appends_inc segs [] h (by simp [nonzero_times])

/-- C2 witness: a descent segment, a zero-time gas declaration and an ascent
segment produce filtered times 60 < 180. -/
theorem plan_times_c2_witness :
    (nonzero_times (run_plan_appends []
      [⟨60, 18000, ⟨209, 0⟩, 0, true⟩, ⟨0, 21000, ⟨500, 0⟩, 0, false⟩,
       ⟨120, 0, ⟨209, 0⟩, 0, false⟩])).Pairwise (· < ·) :=
  plan_times_c2 _ (by decide)


theorem mem_merge_stops (x : Int) : ∀ a b : List Int,
    (x ∈ merge_stops a b ↔ x ∈ a ∨ x ∈ b) := by
  intro a b
  induction a, b using merge_stops.induct with
  | case1 rds => simp [merge_stops]
  | case2 g rgs =>
    simp only [merge_stops, List.mem_reverse, List.mem_cons, List.not_mem_nil]
    tauto
  | case3 d rds g rgs hlt ih =>
    rw [merge_stops, if_pos hlt]
    simp only [List.mem_append, List.mem_singleton, ih, List.mem_cons]
    tauto
  | case4 rds g rgs hnlt ih =>
    rw [merge_stops, if_neg hnlt, if_pos rfl]
    simp only [List.mem_append, List.mem_singleton, ih, List.mem_cons]
    tauto
  | case5 d rds g rgs hnlt hne ih =>
    rw [merge_stops, if_neg hnlt, if_neg hne]
    simp only [List.mem_append, List.mem_singleton, ih, List.mem_cons]
    tauto

theorem length_merge_stops : ∀ a b : List Int,
    (merge_stops a b).length ≤ a.length + b.length := by
  intro a b
  induction a, b using merge_stops.induct with
  | case1 rds => simp [merge_stops]
  | case2 g rgs => simp [merge_stops]
  | case3 d rds g rgs hlt ih =>
    rw [merge_stops, if_pos hlt]
    simp only [List.length_append, List.length_singleton, List.length_cons,
      List.length_nil] at ih ⊢
    omega
  | case4 rds g rgs hnlt ih =>
    rw [merge_stops, if_neg hnlt, if_pos rfl]
    simp only [List.length_append, List.length_singleton, List.length_cons,
      List.length_nil] at ih ⊢
    omega
  | case5 d rds g rgs hnlt hne ih =>
    rw [merge_stops, if_neg hnlt, if_neg hne]
    simp only [List.length_append, List.length_singleton, List.length_cons,
      List.length_nil] at ih ⊢
    omega

theorem merge_stops_sorted : ∀ a b : List Int,
    a.Pairwise (fun x y => y ≤ x) → b.Pairwise (fun x y => y ≤ x) →
    (merge_stops a b).Pairwise (· ≤ ·) := by
  intro a b
  induction a, b using merge_stops.induct with
  | case1 rds =>
    intro ha _
    rw [merge_stops]
    exact List.pairwise_reverse.2 ha
  | case2 g rgs =>
    intro _ hb
    rw [merge_stops]
    exact List.pairwise_reverse.2 hb
  | case3 d rds g rgs hlt ih =>
    intro ha hb
    rw [merge_stops, if_pos hlt]
    rcases List.pairwise_cons.1 ha with ⟨had, ha'⟩
    rcases List.pairwise_cons.1 hb with ⟨hbg, hb'⟩
    apply List.pairwise_append.2
    refine ⟨ih ha' hb, by simp, ?_⟩
    intro x hx y hy
    rw [List.mem_singleton] at hy
    subst hy
    rcases (mem_merge_stops x rds (g :: rgs)).1 hx with h | h
    · exact had x h
    · rcases List.mem_cons.1 h with h1 | h1
      · subst h1; exact le_of_lt hlt
      · exact le_of_lt (lt_of_le_of_lt (hbg x h1) hlt)
  | case4 rds g rgs hnlt ih =>
    intro ha hb
    rw [merge_stops, if_neg hnlt, if_pos rfl]
    rcases List.pairwise_cons.1 ha with ⟨had, ha'⟩
    rcases List.pairwise_cons.1 hb with ⟨hbg, hb'⟩
    apply List.pairwise_append.2
    refine ⟨ih ha' hb', by simp, ?_⟩
    intro x hx y hy
    rw [List.mem_singleton] at hy
    subst hy
    rcases (mem_merge_stops x rds rgs).1 hx with h | h
    · exact had x h
    · exact hbg x h
  | case5 d rds g rgs hnlt hne ih =>
    intro ha hb
    rw [merge_stops, if_neg hnlt, if_neg hne]
    rcases List.pairwise_cons.1 ha with ⟨had, ha'⟩
    rcases List.pairwise_cons.1 hb with ⟨hbg, hb'⟩
    have hdg : d ≤ g := by omega
    apply List.pairwise_append.2
    refine ⟨ih ha hb', by simp, ?_⟩
    intro x hx y hy
    rw [List.mem_singleton] at hy
    subst hy
    rcases (mem_merge_stops x (d :: rds) rgs).1 hx with h | h
    · rcases List.mem_cons.1 h with h1 | h1
      · subst h1; exact hdg
      · exact le_trans (had x h1) hdg
    · exact hbg x h


theorem count_eq_zero_of_lt (l : List Int) (bound x : Int)
    (hb : ∀ y ∈ l, y ≤ bound) (hx : bound < x) : l.count x = 0 := by
  rw [List.count_eq_zero]
  intro hmem
  have := hb x hmem
  omega

theorem count_merge_stops : ∀ a b : List Int,
    a.Pairwise (fun x y => y ≤ x) → b.Pairwise (fun x y => y ≤ x) →
    ∀ x : Int, (merge_stops a b).count x = max (a.count x) (b.count x) := by
  intro a b
  induction a, b using merge_stops.induct with
  | case1 rds =>
    intro _ _ x
    rw [merge_stops, List.count_reverse]
    simp
  | case2 g rgs =>
    intro _ _ x
    rw [merge_stops, List.count_reverse]
    simp
  | case3 d rds g rgs hlt ih =>
    intro ha hb x
    rw [merge_stops, if_pos hlt]
    rcases List.pairwise_cons.1 ha with ⟨had, ha'⟩
    rcases List.pairwise_cons.1 hb with ⟨hbg, hb'⟩
    rw [List.count_append, ih ha' hb]
    by_cases hx : x = d
    · subst hx
      have hg0 : (g :: rgs).count x = 0 := by
        apply count_eq_zero_of_lt (g :: rgs) g x _ hlt
        intro y hy
        rcases List.mem_cons.1 hy with h1 | h1
        · omega
        · exact hbg y h1
      simp only [hg0, List.count_cons_self, List.count_nil]
      omega
    · simp only [List.count_cons_of_ne hx, List.count_nil]
      omega
  | case4 rds g rgs hnlt ih =>
    intro ha hb x
    rw [merge_stops, if_neg hnlt, if_pos rfl]
    rcases List.pairwise_cons.1 ha with ⟨had, ha'⟩
    rcases List.pairwise_cons.1 hb with ⟨hbg, hb'⟩
    rw [List.count_append, ih ha' hb']
    by_cases hx : x = g
    · subst hx
      simp only [List.count_cons_self, List.count_nil]
      omega
    · simp only [List.count_cons_of_ne hx, List.count_nil]
      omega
  | case5 d rds g rgs hnlt hne ih =>
    intro ha hb x
    rw [merge_stops, if_neg hnlt, if_neg hne]
    rcases List.pairwise_cons.1 ha with ⟨had, ha'⟩
    rcases List.pairwise_cons.1 hb with ⟨hbg, hb'⟩
    have hdg : d < g := by omega
    rw [List.count_append, ih ha hb']
    by_cases hx : x = g
    · subst hx
      have hd0 : (d :: rds).count x = 0 := by
        apply count_eq_zero_of_lt (d :: rds) d x _ hdg
        intro y hy
        rcases List.mem_cons.1 hy with h1 | h1
        · omega
        · exact had y h1
      simp only [hd0, List.count_cons_self, List.count_nil]
      omega
    · simp only [List.count_cons_of_ne hx, List.count_nil]
      omega


theorem sort_stops_zero_fill (ds gs : List Int) :
    sort_stops ds gs = List.replicate (ds.length + gs.length
        - (merge_stops ds.reverse gs.reverse).length) 0
      ++ merge_stops ds.reverse gs.reverse := by
  by_cases hg : gs.length = 0
  · have hgs : gs = [] := List.length_eq_zero.1 hg
    subst hgs
    have hm : merge_stops ds.reverse (List.reverse []) = ds := by
      rw [List.reverse_nil, merge_stops, List.reverse_reverse]
    unfold sort_stops
    rw [if_pos hg, hm]
    simp
  · unfold sort_stops
    rw [if_neg hg]

theorem sort_stops_length (ds gs : List Int) :
    (sort_stops ds gs).length = ds.length + gs.length := by
  rw [sort_stops_zero_fill, List.length_append, List.length_replicate]
  have h := length_merge_stops ds.reverse gs.reverse
  rw [List.length_reverse, List.length_reverse] at h
  omega

theorem sort_stops_sorted (ds gs : List Int) (hds : ds.Pairwise (· ≤ ·))
    (hgs : gs.Pairwise (· ≤ ·)) (hd0 : ∀ x ∈ ds, 0 ≤ x) (hg0 : ∀ x ∈ gs, 0 ≤ x) :
    (sort_stops ds gs).Pairwise (· ≤ ·) := by
  rw [sort_stops_zero_fill]
  have hds' : ds.reverse.Pairwise (fun x y => y ≤ x) := List.pairwise_reverse.2 hds
  have hgs' : gs.reverse.Pairwise (fun x y => y ≤ x) := List.pairwise_reverse.2 hgs
  apply List.pairwise_append.2
  refine ⟨List.pairwise_replicate.2 (Or.inr le_rfl), merge_stops_sorted _ _ hds' hgs', ?_⟩
  intro a ha b hb
  have ha0 : a = 0 := List.eq_of_mem_replicate ha
  subst ha0
  rcases (mem_merge_stops b ds.reverse gs.reverse).1 hb with h | h
  · exact hd0 b (List.mem_reverse.1 h)
  · exact hg0 b (List.mem_reverse.1 h)

/-- C1 counterexample: a descending fixed-stop array [9000, 3000] and the
ascending gas-change array [6000] — exactly the input shapes the claim
quantifies over — produce [9000, 3000, 6000], which is not in ascending
order.  `sort_stops` requires its deco-stop input ascending (as
`decostoplevels` is at the call site), not descending as the claim says. -/
theorem sort_stops_c1_counterexample :
    sort_stops [9000, 3000] [6000] = [9000, 3000, 6000]
    ∧ ¬ (sort_stops [9000, 3000] [6000]).Pairwise (· ≤ ·) := by
  have h : sort_stops [9000, 3000] [6000] = [9000, 3000, 6000] := by
    simp [sort_stops, merge_stops]
  refine ⟨h, ?_⟩
  rw [h]
  decide

/-- C1 (amended): for every non-empty ascending array of non-negative fixed
deco-stop depths and every ascending array of non-negative gas-change
depths, sort_stops returns an ascending array that contains the union of the
two inputs; on the merged (non-padding) part each depth occurs
max(multiplicity among fixed stops, multiplicity among gas changes) times,
so when a fixed depth equals a gas-change depth a single entry is retained
with both inputs consumed for it. -/
theorem sort_stops_c1 (ds gs : List Int) (hne : ds ≠ [])
    (hds : ds.Pairwise (· ≤ ·)) (hgs : gs.Pairwise (· ≤ ·))
    (hd0 : ∀ x ∈ ds, 0 ≤ x) (hg0 : ∀ x ∈ gs, 0 ≤ x) :
    (sort_stops ds gs).Pairwise (· ≤ ·)
    ∧ (∀ x : Int, x ∈ ds ∨ x ∈ gs → x ∈ sort_stops ds gs)
    ∧ (∀ x : Int, (merge_stops ds.reverse gs.reverse).count x
        = max (ds.count x) (gs.count x)) := by
  refine ⟨sort_stops_sorted ds gs hds hgs hd0 hg0, ?_, ?_⟩
  · intro x hx
    rw [sort_stops_zero_fill, List.mem_append]
    right
    rw [mem_merge_stops x ds.reverse gs.reverse, List.mem_reverse, List.mem_reverse]
    exact hx
  · intro x
    rw [count_merge_stops ds.reverse gs.reverse (List.pairwise_reverse.2 hds)
        (List.pairwise_reverse.2 hgs) x, List.count_reverse, List.count_reverse]

/-- C1 witness: merging ascending stops [0, 3000, 6000] with gas changes
[3000, 21000] gives the ascending ladder [0, 0, 3000, 6000, 21000]. -/
theorem sort_stops_c1_witness :
    (sort_stops [0, 3000, 6000] [3000, 21000]).Pairwise (· ≤ ·) :=
  (sort_stops_c1 [0, 3000, 6000] [3000, 21000] (by decide) (by decide) (by decide)
    (by decide) (by decide)).1

/-- C9: sort_stops returns exactly dnr + gnr entries — the merged depths,
with a single slot per depth common to both inputs, preceded by slots filled
with 0 — and under the call-site preconditions (non-empty ascending
non-negative inputs) the result stays non-decreasing even with the leading
zeros. -/
theorem sort_stops_c9 (ds gs : List Int) (hne : ds ≠ [])
    (hds : ds.Pairwise (· ≤ ·)) (hgs : gs.Pairwise (· ≤ ·))
    (hd0 : ∀ x ∈ ds, 0 ≤ x) (hg0 : ∀ x ∈ gs, 0 ≤ x) :
    (sort_stops ds gs).length = ds.length + gs.length
    ∧ sort_stops ds gs = List.replicate (ds.length + gs.length
        - (merge_stops ds.reverse gs.reverse).length) 0
        ++ merge_stops ds.reverse gs.reverse
    ∧ (sort_stops ds gs).Pairwise (· ≤ ·) :=
  ⟨sort_stops_length ds gs, sort_stops_zero_fill ds gs,
   sort_stops_sorted ds gs hds hgs hd0 hg0⟩

/-- C9 witness: a tie between fixed stop 3000 and gas change 3000 leaves a
zero-filled slot at the front: [0, 3000] and [3000] give [0, 0, 3000] of
length 3. -/
theorem sort_stops_c9_witness :
    (sort_stops [0, 3000] [3000]).length = 3
    ∧ sort_stops [0, 3000] [3000] = [0, 0, 3000] := by
  have h := (sort_stops_c9 [0, 3000] [3000] (by decide) (by decide) (by decide)
    (by decide) (by decide)).1
  have h2 : sort_stops [0, 3000] [3000] = [0, 0, 3000] := by
    simp [sort_stops, merge_stops]
  exact ⟨by simpa using h, h2⟩

end Planner
